import Mathlib

/-!
Shallow embedding of `src/cache.ts` (zustand-cache): a client-side cache of
named stores holding key-value entries, with per-store invalidation policy,
expiry-based pruning, hit/miss statistics and persistence.

The file `src/cache.ts` contains two revisions of the module; the later
revision (the one with the `_debugStatistics` counters, whose functions sit at
lines 249-412) is the current code and is embedded below.  The sole function
that exists only in the earlier revision, `invalidateIfExpired`
(lines 59-71), is embedded from that earlier revision's text.

Modelling decisions, each forced by the JavaScript semantics of the source:
* JS objects used as maps become association lists `List (String × _)`
  (insertion order, at most one binding per key in any reachable state).
* A TS `Partial<Policy>` object is a record of `Option` fields (`PPolicy`);
  an absent field is `none`.  A full policy is a `PPolicy` all of whose
  fields are `some`; completeness is an invariant, not a type guarantee,
  exactly as in JS.  `{...base, ...over}` becomes `mergePolicy`.
* `policy.invalidationPolicy === "never"` with a possibly-absent field is
  `p.invalidationPolicy = some .never` (in JS `undefined === "never"` is
  `false`).  `assignedAt + expiry < Date.now()` with `expiry` absent is
  `NaN < now`, i.e. `false`: see `expiredB`.
* Cached values (`value: any`, zero-validation; the repository stores
  numbers) are modelled as `Int`; JS truthiness of a number is `v ≠ 0`,
  of `undefined` is false: see `truthy`.
* `set(produce (draft => ...))` replaces the zustand state with a fresh
  immer copy; object references captured from `get()` BEFORE such a `set`
  keep seeing the old data.  In particular `getValue` captures
  `storeInstance` before calling `prune` and reads the value from that
  stale snapshot.  Direct mutations (`storeInstance.cached = {}` in
  `invalidateAll`, `invalidateAllOrThrow`, `invalidateAllStores`) act on
  the live state object.  Both are modelled by explicit state passing: an
  operation takes the current `CacheState` and returns the next one, and
  `getValue` reads from the state it was handed, not from the pruned one.
* `throw` (in `invalidateAllOrThrow`, and the `TypeError` raised by
  `setStorePolicy` on a missing store) leaves the state unchanged and is
  modelled with `Except` resp. an unchanged state.
-/

inductive InvalidationPolicy where
  | never
  | always
  | onExpiry
deriving DecidableEq, Repr

/-- `Partial<Policy>`: a policy record whose three fields may each be absent,
exactly like a JS object.  A complete policy is one with all fields `some`. -/
structure PPolicy where
  invalidationPolicy : Option InvalidationPolicy := none
  expiry : Option Nat := none
  pruneOnSessionStart : Option Bool := none
deriving DecidableEq, Repr

/-- A cached entry: `{ value, assignedAt }` with `assignedAt` a
`Date.now()` millisecond timestamp. -/
structure Entry where
  value : Int
  assignedAt : Nat
deriving DecidableEq, Repr

/-- A store: its entry table `cached` and its policy. -/
structure StoreV where
  cached : List (String × Entry)
  policy : PPolicy
deriving DecidableEq, Repr

/-- The `_debugStatistics` record.  The initial object in the source carries a
third counter `invalidationsDueToExpiry` that is never incremented. -/
structure Statistics where
  hits : Nat
  misses : Nat
  invalidationsDueToExpiry : Nat
deriving DecidableEq, Repr

/-- The data part of the zustand `CacheStore` state: the store registry, the
global policy and the statistics counters.  The function-valued fields of the
TS interface are the operations defined below. -/
structure CacheState where
  stores : List (String × StoreV)
  globalPolicy : PPolicy
  _debugStatistics : Statistics
deriving DecidableEq, Repr

/-- First-match lookup in a JS-object-as-map. -/
def lookupA {α : Type} : List (String × α) → String → Option α
  | [], _ => none
  | p :: rest, k => if p.1 = k then some p.2 else lookupA rest k

/-- `obj[k] = v`: replace the binding in place if the key exists, else append
(JS objects keep insertion order and update in place). -/
def insertA {α : Type} : List (String × α) → String → α → List (String × α)
  | [], k, v => [(k, v)]
  | p :: rest, k, v => if p.1 = k then (k, v) :: rest else p :: insertA rest k v

/-- `delete obj[k]`: remove the (first) binding for `k`. -/
def eraseA {α : Type} : List (String × α) → String → List (String × α)
  | [], _ => []
  | p :: rest, k => if p.1 = k then rest else p :: eraseA rest k

/-- Apply `f` to the store named `s` inside the registry (the effect of an
immer `produce` that rewrites `state.stores[s]`); no-op on other stores and
when `s` is absent. -/
def modifyStore (st : CacheState) (s : String) (f : StoreV → StoreV) : CacheState :=
  { st with stores := st.stores.map fun p => if p.1 = s then (p.1, f p.2) else p }

/-- `{...base, ...over}` on `Partial<Policy>` records: a field present in
`over` wins, otherwise the field of `base` survives. -/
def mergePolicy (base over : PPolicy) : PPolicy :=
  { invalidationPolicy := match over.invalidationPolicy with
      | some v => some v
      | none => base.invalidationPolicy
    expiry := match over.expiry with
      | some v => some v
      | none => base.expiry
    pruneOnSessionStart := match over.pruneOnSessionStart with
      | some v => some v
      | none => base.pruneOnSessionStart }

/-- The empty policy override `{}`. -/
def noOverride : PPolicy := ⟨none, none, none⟩

/-- `cached[key].assignedAt + policy.expiry < now`.  When `expiry` is absent
the JS sum is `NaN` and the comparison is `false`. -/
def expiredB (e : Entry) (p : PPolicy) (now : Nat) : Bool :=
  match p.expiry with
  | some ex => e.assignedAt + ex < now
  | none => false

/-- JS truthiness of `storeInstance.cached[key]?.value`: `undefined` (absent
entry) is falsy, a number is truthy iff nonzero. -/
def truthy : Option Int → Bool
  | some v => v != 0
  | none => false

/-- The initial global policy: `on-expiry`, one hour, prune on session
start. -/
def initialGlobalPolicy : PPolicy :=
  ⟨some .onExpiry, some (60 * 60 * 1000), some true⟩

/-- The initial zustand state: no stores, default global policy, zeroed
statistics. -/
def initialState : CacheState :=
  ⟨[], initialGlobalPolicy, ⟨0, 0, 0⟩⟩

/-- `createStore(store, policy)`: no-op when the store already exists,
otherwise insert a fresh store with policy `{...globalPolicy, ...policy}`. -/
def createStore (s : String) (p : PPolicy) (st : CacheState) : CacheState :=
  match lookupA st.stores s with
  | some _ => st
  | none =>
      { st with stores := insertA st.stores s ⟨[], mergePolicy st.globalPolicy p⟩ }

/-- `setValue(store, key, value)`: create the store (empty override) when
missing, then write the entry with `assignedAt = Date.now()`. -/
def setValue (now : Nat) (s k : String) (v : Int) (st : CacheState) : CacheState :=
  let st1 := match lookupA st.stores s with
    | none => createStore s noOverride st
    | some _ => st
  modifyStore st1 s fun inst => { inst with cached := insertA inst.cached k ⟨v, now⟩ }

/-- `prune(store, key)` (lines 285-300): under `on-expiry` only, remove the
entry when `assignedAt + expiry < Date.now()`; removal goes through
`set(produce ...)`. -/
def prune (now : Nat) (s k : String) (st : CacheState) : CacheState :=
  match lookupA st.stores s with
  | none => st
  | some inst =>
      if inst.policy.invalidationPolicy ≠ some .onExpiry then st
      else match lookupA inst.cached k with
        | none => st
        | some e =>
            if expiredB e inst.policy now then
              modifyStore st s fun i => { i with cached := eraseA i.cached k }
            else st

/-- `pruneAll(store)`: iterate `prune` over the keys of the store's entry
table as captured at call time. -/
def pruneAll (now : Nat) (s : String) (st : CacheState) : CacheState :=
  match lookupA st.stores s with
  | none => st
  | some inst => (inst.cached.map Prod.fst).foldl (fun acc k => prune now s k acc) st

/-- `pruneAllStores()`: `pruneAll` on every store name in the registry. -/
def pruneAllStores (now : Nat) (st : CacheState) : CacheState :=
  (st.stores.map Prod.fst).foldl (fun acc s => pruneAll now s acc) st

/-- `_incrementHits()`. -/
def _incrementHits (st : CacheState) : CacheState :=
  { st with _debugStatistics :=
      { st._debugStatistics with hits := st._debugStatistics.hits + 1 } }

/-- `_incrementMisses()`. -/
def _incrementMisses (st : CacheState) : CacheState :=
  { st with _debugStatistics :=
      { st._debugStatistics with misses := st._debugStatistics.misses + 1 } }

/-- `getValue(store, key)` (lines 315-332).  When the store is missing:
create it and return `null` (no counter is touched).  Otherwise `prune` the
key, then read `storeInstance.cached[key]?.value` from the `storeInstance`
reference captured BEFORE the prune (immer `produce` replaced the state, so
the captured reference is a stale snapshot), and increment hits or misses by
the truthiness of that stale value. -/
def getValue (now : Nat) (s k : String) (st : CacheState) : Option Int × CacheState :=
  match lookupA st.stores s with
  | none => (none, createStore s noOverride st)
  | some inst =>
      let st1 := prune now s k st
      let value := (lookupA inst.cached k).map Entry.value
      let st2 := if truthy value then _incrementHits st1 else _incrementMisses st1
      (value, st2)

/-- `invalidate(store, key)` (lines 249-262): false when the store is
missing, the key is absent, or the policy is `never`; otherwise delete the
entry and return true. -/
def invalidate (s k : String) (st : CacheState) : Bool × CacheState :=
  match lookupA st.stores s with
  | none => (false, st)
  | some inst =>
      match lookupA inst.cached k with
      | none => (false, st)
      | some _ =>
          if inst.policy.invalidationPolicy = some .never then (false, st)
          else (true, modifyStore st s fun i => { i with cached := eraseA i.cached k })

/-- `invalidateIfExpired(store, key)` (earlier revision, lines 59-71): false
when the store is missing or the policy is `never`; removes the entry and
returns true when `cached[key]?.assignedAt + expiry < Date.now()` — with an
absent key or absent expiry the JS comparison is `NaN < now`, i.e. false. -/
def invalidateIfExpired (now : Nat) (s k : String) (st : CacheState) : Bool × CacheState :=
  match lookupA st.stores s with
  | none => (false, st)
  | some inst =>
      if inst.policy.invalidationPolicy = some .never then (false, st)
      else match lookupA inst.cached k with
        | none => (false, st)
        | some e =>
            if expiredB e inst.policy now then
              (true, modifyStore st s fun i => { i with cached := eraseA i.cached k })
            else (false, st)

/-- `invalidateAll(store)`: false when the store is missing or its policy is
`never`; otherwise `storeInstance.cached = {}`. -/
def invalidateAll (s : String) (st : CacheState) : Bool × CacheState :=
  match lookupA st.stores s with
  | none => (false, st)
  | some inst =>
      if inst.policy.invalidationPolicy = some .never then (false, st)
      else (true, modifyStore st s fun i => { i with cached := [] })

/-- The two `throw new Error(...)` sites of `invalidateAllOrThrow`. -/
inductive CacheError where
  | storeMissing (s : String)
  | policyNever (s : String)
deriving DecidableEq, Repr

/-- `invalidateAllOrThrow(store)` (lines 270-278): throws when the store is
missing or its policy is `never`; otherwise clears the entry table. -/
def invalidateAllOrThrow (s : String) (st : CacheState) : Except CacheError CacheState :=
  match lookupA st.stores s with
  | none => .error (.storeMissing s)
  | some inst =>
      if inst.policy.invalidationPolicy = some .never then .error (.policyNever s)
      else .ok (modifyStore st s fun i => { i with cached := [] })

/-- The state observed after a call that may throw: on a throw nothing was
mutated. -/
def resultState (r : Except CacheError CacheState) (st : CacheState) : CacheState :=
  match r with
  | .ok st1 => st1
  | .error _ => st

/-- `invalidateAllStores()` (lines 279-284): `stores[store].cached = {}` for
every store, with no policy guard and no return value. -/
def invalidateAllStores (st : CacheState) : CacheState :=
  { st with stores := st.stores.map fun p => (p.1, { p.2 with cached := [] }) }

/-- `setGlobalPolicy(policy)`: `{...globalPolicy, ...policy}`. -/
def setGlobalPolicy (p : PPolicy) (st : CacheState) : CacheState :=
  { st with globalPolicy := mergePolicy st.globalPolicy p }

/-- `setStorePolicy(store, policy)`: merge onto the named store's policy.
When the store is missing the immer recipe throws a `TypeError`
(`state.stores[store]` is `undefined`) before any mutation, so the state is
unchanged. -/
def setStorePolicy (s : String) (p : PPolicy) (st : CacheState) : CacheState :=
  match lookupA st.stores s with
  | none => st
  | some _ => modifyStore st s fun i => { i with policy := mergePolicy i.policy p }

/-- The durable namespace of the persist middleware options
(lines 400-403): `{ name: "cache" }`; no `partialize` is configured. -/
def persistName : String := "cache"

/-- What `JSON.stringify` keeps of the state under the default persist
options: every data field (the function-valued fields are dropped by JSON
serialization).  With no `partialize` in the options, `_debugStatistics` is
serialized along with the registry and the global policy. -/
structure PersistedState where
  stores : List (String × StoreV)
  globalPolicy : PPolicy
  _debugStatistics : Statistics
deriving DecidableEq, Repr

/-- Serialization to the durable `"cache"` namespace: project the data
fields. -/
def serialize (st : CacheState) : PersistedState :=
  ⟨st.stores, st.globalPolicy, st._debugStatistics⟩

/-- Rehydration with the default persist merge
`{...currentState, ...persistedState}`: every persisted data field overrides
the fresh initial state. -/
def hydrate (pd : PersistedState) : CacheState :=
  ⟨pd.stores, pd.globalPolicy, pd._debugStatistics⟩

/-- The `onFinishHydration` callback (lines 407-412): after rehydration, run
`pruneAllStores` once when the restored global policy has
`pruneOnSessionStart` set. -/
def finishHydration (now : Nat) (st : CacheState) : CacheState :=
  if st.globalPolicy.pruneOnSessionStart = some true then pruneAllStores now st else st

/-- The public operations, as a syntax of actions, for stating invariants
over arbitrary call sequences. -/
inductive Op where
  | createStore (s : String) (p : PPolicy)
  | setValue (now : Nat) (s k : String) (v : Int)
  | getValue (now : Nat) (s k : String)
  | invalidate (s k : String)
  | invalidateIfExpired (now : Nat) (s k : String)
  | invalidateAll (s : String)
  | invalidateAllOrThrow (s : String)
  | invalidateAllStores
  | prune (now : Nat) (s k : String)
  | pruneAll (now : Nat) (s : String)
  | pruneAllStores (now : Nat)
  | setGlobalPolicy (p : PPolicy)
  | setStorePolicy (s : String) (p : PPolicy)

/-- State transition of one public operation (return values discarded; a
throwing `invalidateAllOrThrow` leaves the state unchanged). -/
def applyOp : Op → CacheState → CacheState
  | .createStore s p, st => createStore s p st
  | .setValue now s k v, st => setValue now s k v st
  | .getValue now s k, st => (getValue now s k st).2
  | .invalidate s k, st => (invalidate s k st).2
  | .invalidateIfExpired now s k, st => (invalidateIfExpired now s k st).2
  | .invalidateAll s, st => (invalidateAll s st).2
  | .invalidateAllOrThrow s, st => resultState (invalidateAllOrThrow s st) st
  | .invalidateAllStores, st => invalidateAllStores st
  | .prune now s k, st => prune now s k st
  | .pruneAll now s, st => pruneAll now s st
  | .pruneAllStores now, st => pruneAllStores now st
  | .setGlobalPolicy p, st => setGlobalPolicy p st
  | .setStorePolicy s p, st => setStorePolicy s p st

/-- Run a sequence of public operations from a state. -/
def run (ops : List Op) (st : CacheState) : CacheState :=
  ops.foldl (fun acc o => applyOp o acc) st

/-- A policy with all three fields present. -/
def policyComplete (p : PPolicy) : Prop :=
  p.invalidationPolicy ≠ none ∧ p.expiry ≠ none ∧ p.pruneOnSessionStart ≠ none

/-- Every policy in the state — the global one and each store's — is
complete. -/
def statePoliciesComplete (st : CacheState) : Prop :=
  policyComplete st.globalPolicy ∧ ∀ p ∈ st.stores, policyComplete p.2.policy

/-- Well-formedness every state reachable through JS objects has: store
names are distinct and each store's keys are distinct. -/
def WF (st : CacheState) : Prop :=
  (st.stores.map Prod.fst).Nodup ∧ ∀ p ∈ st.stores, (p.2.cached.map Prod.fst).Nodup

/-! ### Concrete states used by the scenario theorems and witnesses -/

/-- Spec scenario state: global policy amended to `expiry = 1000` ms, then
`setValue("s","k",42)` at `t = 0` (the store is created lazily, inheriting
the global policy). -/
def c1Base : CacheState :=
  setValue 0 "s" "k" 42 (setGlobalPolicy ⟨none, some 1000, none⟩ initialState)

/-- A state with one lazily created store `"s"` (default global policy,
`on-expiry`) holding `k ↦ 42` written at `t = 0`. -/
def exDefaultStore : CacheState := setValue 0 "s" "k" 42 initialState

/-- A state with one store `"s"` created with `invalidationPolicy: "never"`
and an entry `k ↦ 7` written at `t = 5`. -/
def exNeverStore : CacheState :=
  setValue 5 "s" "k" 7 (createStore "s" ⟨some .never, none, none⟩ initialState)

/-- A state whose statistics are nonzero: one successful read was recorded
(`hits = 1`). -/
def exHitState : CacheState := (getValue 100 "s" "k" exDefaultStore).2

/-! ### Association-list lemmas -/

theorem lookupA_insertA_self {α : Type} (l : List (String × α)) (k : String) (v : α) :
    lookupA (insertA l k v) k = some v := by
  induction l with
  | nil => simp [insertA, lookupA]
  | cons p rest ih =>
      by_cases h : p.1 = k
      · simp [insertA, h, lookupA]
      · simp [insertA, h, lookupA, ih]

theorem lookupA_eq_none_of_not_mem {α : Type} {l : List (String × α)} {k : String}
    (h : k ∉ l.map Prod.fst) : lookupA l k = none := by
  induction l with
  | nil => rfl
  | cons p rest ih =>
      simp only [List.map_cons, List.mem_cons] at h
      push_neg at h
      have h1 : p.1 ≠ k := fun hh => h.1 hh.symm
      simp [lookupA, h1, ih h.2]

theorem lookupA_mem {α : Type} {l : List (String × α)} {k : String} {v : α}
    (h : lookupA l k = some v) : (k, v) ∈ l := by
  induction l with
  | nil => simp [lookupA] at h
  | cons p rest ih =>
      obtain ⟨a, b⟩ := p
      by_cases h1 : a = k
      · subst h1
        simp [lookupA] at h
        subst h
        exact List.mem_cons_self _ _
      · simp [lookupA, h1] at h
        exact List.mem_cons_of_mem _ (ih h)

theorem lookupA_eraseA_self {α : Type} {l : List (String × α)} {k : String}
    (h : (l.map Prod.fst).Nodup) : lookupA (eraseA l k) k = none := by
  induction l with
  | nil => rfl
  | cons p rest ih =>
      simp only [List.map_cons, List.nodup_cons] at h
      by_cases h1 : p.1 = k
      · simpa [eraseA, h1] using lookupA_eq_none_of_not_mem (h1 ▸ h.1)
      · simp [eraseA, h1, lookupA, ih h.2]

theorem lookupA_map_all {α : Type} (l : List (String × α)) (k : String) (g : α → α) :
    lookupA (l.map fun p => (p.1, g p.2)) k = (lookupA l k).map g := by
  induction l with
  | nil => rfl
  | cons p rest ih =>
      by_cases h : p.1 = k
      · simp [lookupA, h]
      · simp [lookupA, h, ih]

theorem lookupA_map_ite_self {α : Type} (l : List (String × α)) (s : String) (f : α → α) :
    lookupA (l.map fun p => if p.1 = s then (p.1, f p.2) else p) s
      = (lookupA l s).map f := by
  induction l with
  | nil => rfl
  | cons p rest ih =>
      by_cases h : p.1 = s
      · simp [lookupA, h]
      · simp [lookupA, h, ih]

theorem lookupA_map_ite_ne {α : Type} (l : List (String × α)) {s k : String} (f : α → α)
    (hne : k ≠ s) :
    lookupA (l.map fun p => if p.1 = s then (p.1, f p.2) else p) k = lookupA l k := by
  induction l with
  | nil => rfl
  | cons p rest ih =>
      have hsk : s ≠ k := fun hh => hne hh.symm
      by_cases h : p.1 = s
      · simp [lookupA, h, hsk, ih]
      · by_cases h2 : p.1 = k
        · simp [lookupA, h, h2, hne]
        · simp [lookupA, h, h2, ih]

/-! ### `modifyStore` lemmas -/

theorem lookupA_modifyStore_self (st : CacheState) (s : String) (f : StoreV → StoreV) :
    lookupA (modifyStore st s f).stores s = (lookupA st.stores s).map f :=
  lookupA_map_ite_self st.stores s f

theorem lookupA_modifyStore_ne (st : CacheState) {s k : String} (f : StoreV → StoreV)
    (hne : k ≠ s) :
    lookupA (modifyStore st s f).stores k = lookupA st.stores k :=
  lookupA_map_ite_ne st.stores f hne

theorem modifyStore_stats (st : CacheState) (s : String) (f : StoreV → StoreV) :
    (modifyStore st s f)._debugStatistics = st._debugStatistics := rfl

theorem modifyStore_global (st : CacheState) (s : String) (f : StoreV → StoreV) :
    (modifyStore st s f).globalPolicy = st.globalPolicy := rfl

/-! ### Statistics-preservation lemmas -/

theorem createStore_stats (s : String) (p : PPolicy) (st : CacheState) :
    (createStore s p st)._debugStatistics = st._debugStatistics := by
  unfold createStore
  split <;> rfl

theorem prune_stats (now : Nat) (s k : String) (st : CacheState) :
    (prune now s k st)._debugStatistics = st._debugStatistics := by
  unfold prune
  split
  · rfl
  · split
    · rfl
    · split
      · rfl
      · split <;> rfl

theorem setValue_stats (now : Nat) (s k : String) (v : Int) (st : CacheState) :
    (setValue now s k v st)._debugStatistics = st._debugStatistics := by
  unfold setValue
  split
  · rw [modifyStore_stats, createStore_stats]
  · rw [modifyStore_stats]

/-! ### Shape lemmas: each engine operation either leaves the state alone or
rewrites a single store. -/

theorem prune_shape (now : Nat) (s k : String) (st : CacheState) :
    prune now s k st = st
      ∨ prune now s k st = modifyStore st s fun i => { i with cached := eraseA i.cached k } := by
  unfold prune
  split
  · exact Or.inl rfl
  · split
    · exact Or.inl rfl
    · split
      · exact Or.inl rfl
      · split
        · exact Or.inr rfl
        · exact Or.inl rfl

theorem invalidate_shape (s k : String) (st : CacheState) :
    (invalidate s k st).2 = st
      ∨ (invalidate s k st).2
          = modifyStore st s fun i => { i with cached := eraseA i.cached k } := by
  unfold invalidate
  split
  · exact Or.inl rfl
  · split
    · exact Or.inl rfl
    · split
      · exact Or.inl rfl
      · exact Or.inr rfl

theorem invalidateIfExpired_shape (now : Nat) (s k : String) (st : CacheState) :
    (invalidateIfExpired now s k st).2 = st
      ∨ (invalidateIfExpired now s k st).2
          = modifyStore st s fun i => { i with cached := eraseA i.cached k } := by
  unfold invalidateIfExpired
  split
  · exact Or.inl rfl
  · split
    · exact Or.inl rfl
    · split
      · exact Or.inl rfl
      · split
        · exact Or.inr rfl
        · exact Or.inl rfl

theorem invalidateAll_shape (s : String) (st : CacheState) :
    (invalidateAll s st).2 = st
      ∨ (invalidateAll s st).2 = modifyStore st s fun i => { i with cached := [] } := by
  unfold invalidateAll
  split
  · exact Or.inl rfl
  · split
    · exact Or.inl rfl
    · exact Or.inr rfl

theorem invalidateAllOrThrow_shape (s : String) (st : CacheState) :
    resultState (invalidateAllOrThrow s st) st = st
      ∨ resultState (invalidateAllOrThrow s st) st
          = modifyStore st s fun i => { i with cached := [] } := by
  cases hl : lookupA st.stores s with
  | none =>
      left
      simp [invalidateAllOrThrow, hl, resultState]
  | some inst =>
      by_cases hp : inst.policy.invalidationPolicy = some .never
      · left
        simp [invalidateAllOrThrow, hl, hp, resultState]
      · right
        simp [invalidateAllOrThrow, hl, hp, resultState]

/-- Generic invariant preservation along a `foldl` over keys or store
names. -/
theorem foldl_preserve {β : Type} (P : CacheState → Prop) (f : CacheState → β → CacheState)
    (hf : ∀ st b, P st → P (f st b)) :
    ∀ (l : List β) (st : CacheState), P st → P (l.foldl f st) := by
  intro l
  induction l with
  | nil => intro st h; exact h
  | cons b rest ih => intro st h; exact ih (f st b) (hf st b h)

/-! ### C1: the expiry scenario -/

/-- C1 (code behavior at the claimed scenario): with global `expiry = 1000` ms
and `setValue("s","k",42)` at `t = 0`, `getValue("s","k")` at `t = 500`
returns `42` and records a hit, exactly as the claim states.  At `t = 1500`,
however, the code removes the entry from the store's entry table (the prune
fires) but then reads the `storeInstance` reference captured BEFORE the
prune — `set(produce ...)` replaced the state, so that reference is a stale
snapshot — and therefore returns `42` and records a second HIT, not the
absent-and-miss the claim (and `getValue`'s own interface comment, and the
spec's hit/miss glossary) require.  Final statistics: `hits = 2`,
`misses = 0`, while the entry for `"k"` is gone from the live state. -/
theorem getValue_expired_stale_read :
    (getValue 500 "s" "k" c1Base).1 = some 42
    ∧ ((getValue 500 "s" "k" c1Base).2)._debugStatistics.hits = 1
    ∧ ((getValue 500 "s" "k" c1Base).2)._debugStatistics.misses = 0
    ∧ (getValue 1500 "s" "k" ((getValue 500 "s" "k" c1Base).2)).1 = some 42
    ∧ (lookupA ((getValue 1500 "s" "k" ((getValue 500 "s" "k" c1Base).2)).2).stores "s").bind
        (fun i => lookupA i.cached "k") = none
    ∧ ((getValue 1500 "s" "k" ((getValue 500 "s" "k" c1Base).2)).2)._debugStatistics.hits = 2
    ∧ ((getValue 1500 "s" "k" ((getValue 500 "s" "k" c1Base).2)).2)._debugStatistics.misses
        = 0 := by
  decide

/-! ### C3: persistence round-trip -/

/-- C3 counterexample: the persist options (`{ name: "cache" }`, no
`partialize`) serialize every data field, `_debugStatistics` included, so a
state with `hits = 1` still has `hits = 1` after serialize + hydrate and
after the `onFinishHydration` prune — the statistics are neither excluded
from persistence nor zero after restart. -/
theorem persist_keeps_statistics_cex :
    (hydrate (serialize exHitState))._debugStatistics.hits = 1
    ∧ (finishHydration 200 (hydrate (serialize exHitState)))._debugStatistics.hits = 1
    ∧ ¬ (hydrate (serialize exHitState))._debugStatistics.hits = 0 := by
  decide

/-- C3 amended: serializing to the `"cache"` namespace and hydrating
reproduces the full state — store names, per-store policies, entries (values
and `assignedAt` timestamps) AND the statistics counters, which are
persisted, not reset. -/
theorem persist_roundtrip (st : CacheState) :
    hydrate (serialize st) = st
    ∧ (hydrate (serialize st))._debugStatistics = st._debugStatistics := by
  cases st
  exact ⟨rfl, rfl⟩

/-! ### C9: invalidateAllStores -/

/-- C9: `invalidateAllStores` keeps every store name and replaces every
store's entry table with the empty table, with no `never` guard (the `s`
quantifier carries no policy hypothesis, so `never` stores are cleared too);
its TS return type is `void`, modelled by returning only the state. -/
theorem invalidateAllStores_clears_every_store (st : CacheState) :
    ((invalidateAllStores st).stores.map Prod.fst = st.stores.map Prod.fst)
    ∧ ∀ s inst, lookupA st.stores s = some inst →
        lookupA (invalidateAllStores st).stores s = some { inst with cached := [] } := by
  constructor
  · simp [invalidateAllStores, List.map_map, Function.comp]
  · intro s inst h
    have hmap := lookupA_map_all st.stores s (fun i => { i with cached := [] })
    have h2 : (lookupA st.stores s).map (fun i => { i with cached := [] })
        = some { inst with cached := [] } := by rw [h]; rfl
    exact hmap.trans h2

/-- C9 witness: the `never` store of `exNeverStore` is cleared. -/
theorem invalidateAllStores_clears_every_store_w :
    lookupA (invalidateAllStores exNeverStore).stores "s"
      = some ⟨[], ⟨some .never, some (60 * 60 * 1000), some true⟩⟩ :=
  (invalidateAllStores_clears_every_store exNeverStore).2 "s"
    ⟨[("k", ⟨7, 5⟩)], ⟨some .never, some (60 * 60 * 1000), some true⟩⟩ (by decide)

/-! ### C8: invalidateAllOrThrow -/

/-- C8: `invalidateAllOrThrow` throws `storeMissing` on a missing store,
throws `policyNever` on an existing store with policy `never`, and on an
existing store with policy `always` or `on-expiry` clears all entries and
returns normally. -/
theorem invalidateAllOrThrow_spec (st : CacheState) (s : String) :
    (lookupA st.stores s = none →
      invalidateAllOrThrow s st = .error (.storeMissing s))
    ∧ (∀ inst, lookupA st.stores s = some inst →
        inst.policy.invalidationPolicy = some .never →
        invalidateAllOrThrow s st = .error (.policyNever s))
    ∧ (∀ inst, lookupA st.stores s = some inst →
        (inst.policy.invalidationPolicy = some .always
          ∨ inst.policy.invalidationPolicy = some .onExpiry) →
        invalidateAllOrThrow s st
            = .ok (modifyStore st s fun i => { i with cached := [] })
        ∧ lookupA (resultState (invalidateAllOrThrow s st) st).stores s
            = some { inst with cached := [] }) := by
  refine ⟨?_, ?_, ?_⟩
  · intro h
    simp [invalidateAllOrThrow, h]
  · intro inst h hp
    simp [invalidateAllOrThrow, h, hp]
  · intro inst h hp
    have hnever : ¬ inst.policy.invalidationPolicy = some .never := by
      rcases hp with hp | hp <;> simp [hp]
    have heq : invalidateAllOrThrow s st
        = .ok (modifyStore st s fun i => { i with cached := [] }) := by
      simp [invalidateAllOrThrow, h, hnever]
    refine ⟨heq, ?_⟩
    rw [heq]
    show lookupA (modifyStore st s fun i => { i with cached := [] }).stores s = _
    rw [lookupA_modifyStore_self, h]
    rfl

/-- C8 witness: on the default (`on-expiry`) store the call succeeds and the
entry table is left empty. -/
theorem invalidateAllOrThrow_spec_w :
    lookupA (resultState (invalidateAllOrThrow "s" exDefaultStore) exDefaultStore).stores "s"
      = some ⟨[], ⟨some .onExpiry, some (60 * 60 * 1000), some true⟩⟩ :=
  ((invalidateAllOrThrow_spec exDefaultStore "s").2.2
    ⟨[("k", ⟨42, 0⟩)], ⟨some .onExpiry, some (60 * 60 * 1000), some true⟩⟩
    (by decide) (Or.inr (by decide))).2

/-! ### C2: invalidate -/

/-- C2: `invalidate` returns `false` and leaves the state unchanged when the
store is missing, the key is absent, or the policy is `never`; otherwise it
removes exactly that entry (the registry is rewritten only at store `s`,
whose table loses only key `k`) and returns `true`; and a second call on the
same key always returns `false` (idempotence on an already-absent key; the
well-formedness hypothesis is the JS-object guarantee that keys are
unique). -/
theorem invalidate_spec (st : CacheState) (s k : String) :
    (lookupA st.stores s = none → invalidate s k st = (false, st))
    ∧ (∀ inst, lookupA st.stores s = some inst → lookupA inst.cached k = none →
        invalidate s k st = (false, st))
    ∧ (∀ inst, lookupA st.stores s = some inst →
        inst.policy.invalidationPolicy = some .never → invalidate s k st = (false, st))
    ∧ (∀ inst e, lookupA st.stores s = some inst → lookupA inst.cached k = some e →
        ¬ inst.policy.invalidationPolicy = some .never →
        invalidate s k st
          = (true, modifyStore st s fun i => { i with cached := eraseA i.cached k }))
    ∧ (WF st → (invalidate s k ((invalidate s k st).2)).1 = false) := by
  refine ⟨?_, ?_, ?_, ?_, ?_⟩
  · intro h
    simp [invalidate, h]
  · intro inst h hk
    simp [invalidate, h, hk]
  · intro inst h hp
    cases hk : lookupA inst.cached k with
    | none => simp [invalidate, h, hk]
    | some e => simp [invalidate, h, hk, hp]
  · intro inst e h hk hp
    simp [invalidate, h, hk, hp]
  · intro hwf
    cases h : lookupA st.stores s with
    | none =>
        have h1 : invalidate s k st = (false, st) := by simp [invalidate, h]
        rw [h1]
        simp [invalidate, h]
    | some inst =>
        cases hk : lookupA inst.cached k with
        | none =>
            have h1 : invalidate s k st = (false, st) := by simp [invalidate, h, hk]
            rw [h1]
            simp [invalidate, h, hk]
        | some e =>
            by_cases hp : inst.policy.invalidationPolicy = some .never
            · have h1 : invalidate s k st = (false, st) := by simp [invalidate, h, hk, hp]
              rw [h1]
              simp [invalidate, h, hk, hp]
            · have h1 : invalidate s k st
                  = (true, modifyStore st s fun i => { i with cached := eraseA i.cached k }) := by
                simp [invalidate, h, hk, hp]
              rw [h1]
              have h2 : lookupA
                    (modifyStore st s fun i => { i with cached := eraseA i.cached k }).stores s
                  = some { inst with cached := eraseA inst.cached k } := by
                rw [lookupA_modifyStore_self, h]
                rfl
              have hnodup : (inst.cached.map Prod.fst).Nodup :=
                hwf.2 (s, inst) (lookupA_mem h)
              have h3 : lookupA (eraseA inst.cached k) k = none := lookupA_eraseA_self hnodup
              simp [invalidate, h2, h3]

/-- C2 witness: on a live default store the first `invalidate` removes the
entry and the second returns `false`. -/
theorem invalidate_spec_w :
    (invalidate "s" "k" ((invalidate "s" "k" exDefaultStore).2)).1 = false :=
  (invalidate_spec exDefaultStore "s" "k").2.2.2.2 (by unfold WF; decide)

/-! ### C4: getValue statistics -/

/-- C4 counterexample: `getValue` against a store name that does not yet
exist takes the early-return path (`createStore` then `return null`) and
increments NEITHER counter, so it is not true that every `getValue` call
increments exactly one of hits/misses by one. -/
theorem getValue_missing_store_cex :
    ((getValue 0 "s" "k" initialState).2)._debugStatistics.hits = 0
    ∧ ((getValue 0 "s" "k" initialState).2)._debugStatistics.misses = 0
    ∧ ¬ (((getValue 0 "s" "k" initialState).2)._debugStatistics.hits
          + ((getValue 0 "s" "k" initialState).2)._debugStatistics.misses = 1) := by
  decide

/-- C4 amended: a `getValue` against an EXISTING store increments exactly one
of the hits/misses counters by exactly one and never both; a `getValue`
against a missing store creates the store and leaves both counters
unchanged. -/
theorem getValue_stats_spec (st : CacheState) (s k : String) (now : Nat) :
    (lookupA st.stores s = none →
      ((getValue now s k st).2)._debugStatistics = st._debugStatistics)
    ∧ (∀ inst, lookupA st.stores s = some inst →
        (((getValue now s k st).2)._debugStatistics.hits = st._debugStatistics.hits + 1
            ∧ ((getValue now s k st).2)._debugStatistics.misses = st._debugStatistics.misses)
          ∨ (((getValue now s k st).2)._debugStatistics.hits = st._debugStatistics.hits
            ∧ ((getValue now s k st).2)._debugStatistics.misses
                = st._debugStatistics.misses + 1)) := by
  constructor
  · intro h
    simp [getValue, h, createStore_stats]
  · intro inst h
    by_cases ht : truthy ((lookupA inst.cached k).map Entry.value) = true
    · left
      constructor <;> simp [getValue, h, ht, _incrementHits, prune_stats]
    · right
      rw [Bool.not_eq_true] at ht
      constructor <;> simp [getValue, h, ht, _incrementMisses, prune_stats]

/-- C4 witness: reading the absent key `"k2"` of the existing store of
`exDefaultStore` resolves to exactly one increment (a miss). -/
theorem getValue_stats_spec_w :
    (((getValue 0 "s" "k2" exDefaultStore).2)._debugStatistics.hits
          = exDefaultStore._debugStatistics.hits + 1
        ∧ ((getValue 0 "s" "k2" exDefaultStore).2)._debugStatistics.misses
          = exDefaultStore._debugStatistics.misses)
      ∨ (((getValue 0 "s" "k2" exDefaultStore).2)._debugStatistics.hits
          = exDefaultStore._debugStatistics.hits
        ∧ ((getValue 0 "s" "k2" exDefaultStore).2)._debugStatistics.misses
          = exDefaultStore._debugStatistics.misses + 1) :=
  (getValue_stats_spec exDefaultStore "s" "k2" 0).2
    ⟨[("k", ⟨42, 0⟩)], ⟨some .onExpiry, some (60 * 60 * 1000), some true⟩⟩ (by decide)

/-! ### C6: setValue then immediate getValue -/

/-- C6 counterexample: storing the falsy value `0` and reading it back at the
same instant returns the just-set value but increments MISSES, not hits —
`getValue` branches on JS truthiness of the value (`if (value)`), not on its
presence, so the claim fails for falsy stored values. -/
theorem setValue_getValue_falsy_cex :
    (getValue 0 "s" "k" (setValue 0 "s" "k" 0 initialState)).1 = some 0
    ∧ ((getValue 0 "s" "k" (setValue 0 "s" "k" 0 initialState)).2)._debugStatistics.hits = 0
    ∧ ((getValue 0 "s" "k" (setValue 0 "s" "k" 0 initialState)).2)._debugStatistics.misses
        = 1 := by
  decide

/-- C6 amended: for every TRUTHY (nonzero) stored value, `setValue` followed
by an immediate `getValue` on the same key returns the just-set value,
increments hits by exactly one and leaves misses unchanged (for falsy values
the value is still returned but the miss counter is incremented instead). -/
theorem setValue_then_getValue (st : CacheState) (s k : String) (v : Int) (now : Nat)
    (hv : ¬ v = 0) :
    (getValue now s k (setValue now s k v st)).1 = some v
    ∧ ((getValue now s k (setValue now s k v st)).2)._debugStatistics.hits
        = st._debugStatistics.hits + 1
    ∧ ((getValue now s k (setValue now s k v st)).2)._debugStatistics.misses
        = st._debugStatistics.misses := by
  have hstore : ∃ inst, lookupA (setValue now s k v st).stores s = some inst
      ∧ lookupA inst.cached k = some ⟨v, now⟩ := by
    cases h : lookupA st.stores s with
    | none =>
        refine ⟨⟨insertA [] k ⟨v, now⟩, mergePolicy st.globalPolicy noOverride⟩, ?_, ?_⟩
        · simp only [setValue, h]
          rw [lookupA_modifyStore_self]
          have hc : lookupA (createStore s noOverride st).stores s
              = some ⟨[], mergePolicy st.globalPolicy noOverride⟩ := by
            simp [createStore, h, lookupA_insertA_self]
          rw [hc]
          rfl
        · exact lookupA_insertA_self _ _ _
    | some inst0 =>
        refine ⟨{ inst0 with cached := insertA inst0.cached k ⟨v, now⟩ }, ?_,
          lookupA_insertA_self _ _ _⟩
        simp only [setValue, h]
        rw [lookupA_modifyStore_self, h]
        rfl
  obtain ⟨inst, h1, h2⟩ := hstore
  have ht : truthy ((lookupA inst.cached k).map Entry.value) = true := by
    rw [h2]
    simp [truthy, hv]
  refine ⟨?_, ?_, ?_⟩
  · simp [getValue, h1, h2]
  · simp [getValue, h1, ht, _incrementHits, prune_stats, setValue_stats]
  · simp [getValue, h1, ht, _incrementHits, prune_stats, setValue_stats]

/-- C6 witness: storing `42` and reading it back immediately from the empty
registry yields `some 42`, `hits = 1`, `misses = 0`. -/
theorem setValue_then_getValue_w :
    (getValue 7 "s" "k" (setValue 7 "s" "k" 42 initialState)).1 = some 42
    ∧ ((getValue 7 "s" "k" (setValue 7 "s" "k" 42 initialState)).2)._debugStatistics.hits
        = initialState._debugStatistics.hits + 1
    ∧ ((getValue 7 "s" "k" (setValue 7 "s" "k" 42 initialState)).2)._debugStatistics.misses
        = initialState._debugStatistics.misses :=
  setValue_then_getValue initialState "s" "k" 42 7 (by decide)

/-! ### C7: prune -/

/-- C7: `prune` removes the entry exactly when the owning store's policy is
`on-expiry` AND `now - assignedAt > expiry` (strictly): in the removal case
the state is rewritten only at store `s`, whose table loses key `k` (so the
key no longer resolves, given the JS-object key-uniqueness of the table);
under `always` or `never`, and for non-expired entries, the state is
returned unchanged. -/
theorem prune_spec (st : CacheState) (s k : String) (now : Nat) :
    ∀ inst e ex, lookupA st.stores s = some inst →
      lookupA inst.cached k = some e →
      inst.policy.expiry = some ex →
      ((inst.policy.invalidationPolicy = some .onExpiry → now - e.assignedAt > ex →
          prune now s k st
            = modifyStore st s (fun i => { i with cached := eraseA i.cached k })
          ∧ ((inst.cached.map Prod.fst).Nodup →
              (lookupA (prune now s k st).stores s).bind (fun i => lookupA i.cached k)
                = none))
        ∧ ((inst.policy.invalidationPolicy = some .always
              ∨ inst.policy.invalidationPolicy = some .never) →
            prune now s k st = st)
        ∧ (¬ now - e.assignedAt > ex → prune now s k st = st)) := by
  intro inst e ex h hk hex
  refine ⟨?_, ?_, ?_⟩
  · intro hp hgt
    have hexp : expiredB e inst.policy now = true := by
      simp [expiredB, hex]
      omega
    have heq : prune now s k st
        = modifyStore st s fun i => { i with cached := eraseA i.cached k } := by
      simp [prune, h, hp, hk, hexp]
    refine ⟨heq, ?_⟩
    intro hnodup
    rw [heq, lookupA_modifyStore_self, h]
    simpa using lookupA_eraseA_self hnodup
  · intro hp
    have hne : ¬ inst.policy.invalidationPolicy = some .onExpiry := by
      rcases hp with hp | hp <;> simp [hp]
    simp [prune, h, hne]
  · intro hle
    by_cases hp : inst.policy.invalidationPolicy = some .onExpiry
    · have hexp : expiredB e inst.policy now = false := by
        simp [expiredB, hex]
        omega
      simp [prune, h, hp, hk, hexp]
    · simp [prune, h, hp]

/-- C7 witness: in the expiry scenario (expiry 1000 ms, write at `t = 0`),
pruning at `t = 1500` leaves the key unresolvable. -/
theorem prune_spec_w :
    (lookupA (prune 1500 "s" "k" c1Base).stores "s").bind (fun i => lookupA i.cached "k")
      = none :=
  ((prune_spec c1Base "s" "k" 1500
      ⟨[("k", ⟨42, 0⟩)], ⟨some .onExpiry, some 1000, some true⟩⟩ ⟨42, 0⟩ 1000
      (by decide) (by decide) (by decide)).1 (by decide) (by decide)).2 (by decide)

/-! ### C5: `never` stores and the engine -/

theorem prune_preserves_never {st : CacheState} {s : String} {inst : StoreV}
    (h : lookupA st.stores s = some inst)
    (hp : inst.policy.invalidationPolicy = some .never)
    (now : Nat) (s' k : String) :
    lookupA (prune now s' k st).stores s = some inst := by
  by_cases hs : s = s'
  · subst hs
    simp [prune, h, hp]
  · rcases prune_shape now s' k st with hsh | hsh
    · rw [hsh]; exact h
    · rw [hsh, lookupA_modifyStore_ne st _ hs]; exact h

theorem pruneAll_preserves_never {st : CacheState} {s : String} {inst : StoreV}
    (h : lookupA st.stores s = some inst)
    (hp : inst.policy.invalidationPolicy = some .never)
    (now : Nat) (s' : String) :
    lookupA (pruneAll now s' st).stores s = some inst := by
  unfold pruneAll
  split
  · exact h
  · exact foldl_preserve (fun stx => lookupA stx.stores s = some inst)
      (fun acc k => prune now s' k acc)
      (fun stx k hx => prune_preserves_never hx hp now s' k) _ st h

theorem pruneAllStores_preserves_never {st : CacheState} {s : String} {inst : StoreV}
    (h : lookupA st.stores s = some inst)
    (hp : inst.policy.invalidationPolicy = some .never)
    (now : Nat) :
    lookupA (pruneAllStores now st).stores s = some inst := by
  unfold pruneAllStores
  exact foldl_preserve (fun stx => lookupA stx.stores s = some inst)
    (fun acc s' => pruneAll now s' acc)
    (fun stx s' hx => pruneAll_preserves_never hx hp now s') _ st h

/-- C5: a store whose policy is `never` keeps its whole instance — entry
table included — across every invalidation and pruning operation other than
`invalidateAllStores`, for any arguments and any `Date.now()`:
`invalidate`, `invalidateIfExpired`, `invalidateAll`,
`invalidateAllOrThrow` (which throws on that store), `prune`, `pruneAll`
and `pruneAllStores` all leave `lookupA st.stores s` intact. -/
theorem never_store_entries_preserved (st : CacheState) (s : String) (inst : StoreV)
    (h : lookupA st.stores s = some inst)
    (hp : inst.policy.invalidationPolicy = some .never)
    (now : Nat) (s' k : String) :
    lookupA ((invalidate s' k st).2).stores s = some inst
    ∧ lookupA ((invalidateIfExpired now s' k st).2).stores s = some inst
    ∧ lookupA ((invalidateAll s' st).2).stores s = some inst
    ∧ lookupA (resultState (invalidateAllOrThrow s' st) st).stores s = some inst
    ∧ lookupA (prune now s' k st).stores s = some inst
    ∧ lookupA (pruneAll now s' st).stores s = some inst
    ∧ lookupA (pruneAllStores now st).stores s = some inst := by
  refine ⟨?_, ?_, ?_, ?_, prune_preserves_never h hp now s' k,
    pruneAll_preserves_never h hp now s', pruneAllStores_preserves_never h hp now⟩
  · by_cases hs : s = s'
    · subst hs
      cases hk : lookupA inst.cached k with
      | none => simp [invalidate, h, hk]
      | some e => simp [invalidate, h, hk, hp]
    · rcases invalidate_shape s' k st with hsh | hsh
      · rw [hsh]; exact h
      · rw [hsh, lookupA_modifyStore_ne st _ hs]; exact h
  · by_cases hs : s = s'
    · subst hs
      simp [invalidateIfExpired, h, hp]
    · rcases invalidateIfExpired_shape now s' k st with hsh | hsh
      · rw [hsh]; exact h
      · rw [hsh, lookupA_modifyStore_ne st _ hs]; exact h
  · by_cases hs : s = s'
    · subst hs
      simp [invalidateAll, h, hp]
    · rcases invalidateAll_shape s' st with hsh | hsh
      · rw [hsh]; exact h
      · rw [hsh, lookupA_modifyStore_ne st _ hs]; exact h
  · by_cases hs : s = s'
    · subst hs
      simp [invalidateAllOrThrow, h, hp, resultState]
    · rcases invalidateAllOrThrow_shape s' st with hsh | hsh
      · rw [hsh]; exact h
      · rw [hsh, lookupA_modifyStore_ne st _ hs]; exact h

/-- C5 witness: the `never` store of `exNeverStore` survives `invalidate`
targeted at its own key. -/
theorem never_store_entries_preserved_w :
    lookupA ((invalidate "s" "k" exNeverStore).2).stores "s"
      = some ⟨[("k", ⟨7, 5⟩)], ⟨some .never, some (60 * 60 * 1000), some true⟩⟩ :=
  (never_store_entries_preserved exNeverStore "s"
    ⟨[("k", ⟨7, 5⟩)], ⟨some .never, some (60 * 60 * 1000), some true⟩⟩
    (by decide) (by decide) 999 "s" "k").1

/-! ### C10: policy completeness invariant -/

theorem mergePolicy_complete {base : PPolicy} (hb : policyComplete base) (over : PPolicy) :
    policyComplete (mergePolicy base over) := by
  obtain ⟨h1, h2, h3⟩ := hb
  refine ⟨?_, ?_, ?_⟩
  · cases ho : over.invalidationPolicy <;> simp [mergePolicy, ho, h1]
  · cases ho : over.expiry <;> simp [mergePolicy, ho, h2]
  · cases ho : over.pruneOnSessionStart <;> simp [mergePolicy, ho, h3]

theorem mem_insertA {α : Type} {l : List (String × α)} {k : String} {v : α} {q : String × α}
    (h : q ∈ insertA l k v) : q ∈ l ∨ q = (k, v) := by
  induction l with
  | nil =>
      simp [insertA] at h
      exact Or.inr h
  | cons p rest ih =>
      by_cases h1 : p.1 = k
      · simp only [insertA, h1, if_pos, List.mem_cons] at h
        rcases h with h | h
        · exact Or.inr h
        · exact Or.inl (List.mem_cons_of_mem _ h)
      · simp only [insertA, h1, if_neg, ite_false, List.mem_cons] at h
        rcases h with h | h
        · exact Or.inl (h ▸ List.mem_cons_self _ _)
        · rcases ih h with h2 | h2
          · exact Or.inl (List.mem_cons_of_mem _ h2)
          · exact Or.inr h2

theorem modifyStore_policiesComplete {st : CacheState} {s : String} {f : StoreV → StoreV}
    (h : statePoliciesComplete st)
    (hf : ∀ i, policyComplete i.policy → policyComplete (f i).policy) :
    statePoliciesComplete (modifyStore st s f) := by
  refine ⟨h.1, ?_⟩
  intro q hq
  simp only [modifyStore] at hq
  rcases List.mem_map.mp hq with ⟨p, hp, hq2⟩
  by_cases h1 : p.1 = s
  · rw [← hq2]
    simp only [h1, if_pos]
    exact hf p.2 (h.2 p hp)
  · rw [← hq2]
    simp only [h1, ite_false, if_neg]
    exact h.2 p hp

theorem createStore_policiesComplete {st : CacheState} (h : statePoliciesComplete st)
    (s : String) (p : PPolicy) : statePoliciesComplete (createStore s p st) := by
  unfold createStore
  split
  · exact h
  · refine ⟨h.1, ?_⟩
    intro q hq
    rcases mem_insertA hq with h2 | h2
    · exact h.2 q h2
    · rw [h2]
      exact mergePolicy_complete h.1 p

theorem prune_policiesComplete {st : CacheState} (h : statePoliciesComplete st)
    (now : Nat) (s k : String) : statePoliciesComplete (prune now s k st) := by
  rcases prune_shape now s k st with hsh | hsh <;> rw [hsh]
  · exact h
  · exact modifyStore_policiesComplete h (fun i hi => hi)

theorem pruneAll_policiesComplete {st : CacheState} (h : statePoliciesComplete st)
    (now : Nat) (s : String) : statePoliciesComplete (pruneAll now s st) := by
  unfold pruneAll
  split
  · exact h
  · exact foldl_preserve statePoliciesComplete _
      (fun stx k hx => prune_policiesComplete hx now s k) _ st h

theorem applyOp_policiesComplete (o : Op) {st : CacheState} (h : statePoliciesComplete st) :
    statePoliciesComplete (applyOp o st) := by
  cases o with
  | createStore s p => exact createStore_policiesComplete h s p
  | setValue now s k v =>
      show statePoliciesComplete (setValue now s k v st)
      have h1 : statePoliciesComplete (match lookupA st.stores s with
          | none => createStore s noOverride st
          | some _ => st) := by
        split
        · exact createStore_policiesComplete h s noOverride
        · exact h
      exact modifyStore_policiesComplete h1 (fun i hi => hi)
  | getValue now s k =>
      have hp : statePoliciesComplete (prune now s k st) := prune_policiesComplete h now s k
      show statePoliciesComplete ((getValue now s k st).2)
      unfold getValue
      split
      · exact createStore_policiesComplete h s noOverride
      · dsimp only
        split
        · exact hp
        · exact hp
  | invalidate s k =>
      show statePoliciesComplete ((invalidate s k st).2)
      rcases invalidate_shape s k st with hsh | hsh <;> rw [hsh]
      · exact h
      · exact modifyStore_policiesComplete h (fun i hi => hi)
  | invalidateIfExpired now s k =>
      show statePoliciesComplete ((invalidateIfExpired now s k st).2)
      rcases invalidateIfExpired_shape now s k st with hsh | hsh <;> rw [hsh]
      · exact h
      · exact modifyStore_policiesComplete h (fun i hi => hi)
  | invalidateAll s =>
      show statePoliciesComplete ((invalidateAll s st).2)
      rcases invalidateAll_shape s st with hsh | hsh <;> rw [hsh]
      · exact h
      · exact modifyStore_policiesComplete h (fun i hi => hi)
  | invalidateAllOrThrow s =>
      show statePoliciesComplete (resultState (invalidateAllOrThrow s st) st)
      rcases invalidateAllOrThrow_shape s st with hsh | hsh <;> rw [hsh]
      · exact h
      · exact modifyStore_policiesComplete h (fun i hi => hi)
  | invalidateAllStores =>
      show statePoliciesComplete (invalidateAllStores st)
      refine ⟨h.1, ?_⟩
      intro q hq
      simp only [invalidateAllStores] at hq
      rcases List.mem_map.mp hq with ⟨p, hp2, hq2⟩
      rw [← hq2]
      exact h.2 p hp2
  | prune now s k => exact prune_policiesComplete h now s k
  | pruneAll now s => exact pruneAll_policiesComplete h now s
  | pruneAllStores now =>
      show statePoliciesComplete (pruneAllStores now st)
      unfold pruneAllStores
      exact foldl_preserve statePoliciesComplete _
        (fun stx s hx => pruneAll_policiesComplete hx now s) _ st h
  | setGlobalPolicy p =>
      exact ⟨mergePolicy_complete h.1 p, h.2⟩
  | setStorePolicy s p =>
      show statePoliciesComplete (setStorePolicy s p st)
      unfold setStorePolicy
      split
      · exact h
      · exact modifyStore_policiesComplete h (fun i hi => mergePolicy_complete hi p)

/-- C10: after any sequence of public operations starting from the initial
state, the global policy and every store's policy are complete records —
`createStore` merges the caller's override onto the (complete) global
policy, `setGlobalPolicy`/`setStorePolicy` merge onto an already-complete
policy, and no operation ever drops a policy field. -/
theorem policies_always_complete (ops : List Op) :
    statePoliciesComplete (run ops initialState) := by
  have hinit : statePoliciesComplete initialState := by
    constructor
    · refine ⟨?_, ?_, ?_⟩ <;> simp [initialState, initialGlobalPolicy]
    · intro p hp
      simp [initialState] at hp
  have hrun : ∀ (l : List Op) (stx : CacheState),
      statePoliciesComplete stx → statePoliciesComplete (run l stx) := by
    intro l
    induction l with
    | nil => intro stx hx; exact hx
    | cons o rest ih => intro stx hx; exact ih (applyOp o stx) (applyOp_policiesComplete o hx)
  exact hrun ops initialState hinit

/-- C10 witness: a lazy store creation with a one-field override followed by
a one-field store-policy update still yields complete policies
throughout. -/
theorem policies_always_complete_w :
    statePoliciesComplete (run
      [Op.createStore "s" ⟨some .never, none, none⟩,
        Op.setStorePolicy "s" ⟨none, some 5, none⟩,
        Op.setGlobalPolicy ⟨none, none, some false⟩] initialState) :=
  policies_always_complete
    [Op.createStore "s" ⟨some .never, none, none⟩,
      Op.setStorePolicy "s" ⟨none, some 5, none⟩,
      Op.setGlobalPolicy ⟨none, none, some false⟩]
